import Mathlib

/-! Shallow embedding of the KnowledgeGraph engine of this repository
(`KnowledgeGraph.ts`): the node/edge data model, similarity-based
auto-linking, metrics derivation, and the reinforcement update rule.

Modeling conventions:
* The JS `number` type is modeled as `ℚ` on every field whose arithmetic
  is exact (weights, confidences, metric aggregates: only `+`, `min`,
  `max`, `/` on rationals occur there), and as `ℝ` where `Math.sqrt`
  occurs (embedding vectors, cosine similarity, edge weights).
* The JS value `NaN`, produced by `0 / 0` inside `cosineSimilarity`,
  is modeled by `Option ℝ` with `none` standing for `NaN`; every JS
  ordering comparison involving `NaN` is false.
* `crypto.randomUUID()` is modeled by caller-supplied identifiers (for
  nodes) and an identifier supply `ℕ → String` (for edges), assumed
  collision free exactly where a theorem states it.
* `Date.now()` is an `ℕ` parameter, `localStorage` persistence and
  `console` logging are external side effects with no graph-state
  content and are not modeled.
* A JS `Map` (insertion-ordered, unique keys) is an association list
  `List (String × _)`; `Map.set` overwrites in place for a present key
  and appends for a fresh key.
-/

inductive NodeType where
  | concept
  | entity
  | document
  | query
deriving DecidableEq

inductive Feedback where
  | positive
  | negative
deriving DecidableEq

/-- `metadata: { source?, confidence?, domain? }` of a `KnowledgeNode`. -/
structure Metadata where
  source : Option String
  confidence : Option ℚ
  domain : Option String
deriving DecidableEq

/-- The `KnowledgeNode` interface.  `embedding?` is the optional vector. -/
structure KnowledgeNode where
  id : String
  label : String
  type : NodeType
  content : String
  embedding : Option (List ℝ)
  connections : List String
  weight : ℚ
  timestamp : ℕ
  metadata : Metadata

/-- The `KnowledgeEdge` interface. -/
structure KnowledgeEdge where
  id : String
  source : String
  target : String
  relationship : String
  weight : ℝ
  timestamp : ℕ

/-- The `LearningMetrics` interface. -/
structure LearningMetrics where
  totalNodes : ℕ
  totalEdges : ℕ
  averageConnectivity : ℚ
  knowledgeDomains : List String
  growthRate : ℚ
  confidenceScore : ℚ

/-- The `KnowledgeGraph` class state: `nodes`, `edges` (JS `Map`s as
association lists) and `learningHistory`. -/
structure KnowledgeGraph where
  nodes : List (String × KnowledgeNode)
  edges : List (String × KnowledgeEdge)
  learningHistory : List LearningMetrics

/-- JS `x || d` for an optional number `x`: `undefined` and `0` are
falsy, every other number is truthy (`NaN` does not arise on the `ℚ`
modeled fields). -/
def jsOrQ (o : Option ℚ) (d : ℚ) : ℚ :=
  match o with
  | some c => if c = 0 then d else c
  | none => d

/-- JS `s || d` for an optional string `s`: `undefined` and the empty
string are falsy. -/
def jsOrStr (o : Option String) (d : String) : String :=
  match o with
  | some s => if s = "" then d else s
  | none => d

/-- `Array.from(new Set(l))`: deduplication keeping the first
occurrence of each element, in insertion order. -/
def jsSetList (l : List String) : List String :=
  l.foldl (fun acc d => if d ∈ acc then acc else acc ++ [d]) []

/-- JS `Map.set`: replace in place when the key is present, append
otherwise. -/
def mapSet (m : List (String × KnowledgeNode)) (k : String) (v : KnowledgeNode) :
    List (String × KnowledgeNode) :=
  if k ∈ m.map Prod.fst then m.map (fun p => if p.1 = k then (k, v) else p)
  else m ++ [(k, v)]

/-- The characters of the sentence-splitting regular expression
`/[.!?]+/` in `extractLabel`. -/
def isSentenceSep (c : Char) : Bool := c == '.' || c == '!' || c == '?'

mutual

/-- Chunk collector for JS `split(/[.!?]+/)`: `acc` holds the current
chunk, reversed. -/
def splitSepAux : List Char → List Char → List (List Char)
  | [], acc => [acc.reverse]
  | c :: rest, acc =>
      if isSentenceSep c then acc.reverse :: splitSepGap rest
      else splitSepAux rest (c :: acc)

/-- Separator-run consumer for JS `split(/[.!?]+/)`: skips the rest of
a maximal separator run, then starts the next chunk. -/
def splitSepGap : List Char → List (List Char)
  | [] => [[]]
  | c :: rest => if isSentenceSep c then splitSepGap rest else splitSepAux rest [c]

end

/-- JS `content.split(/[.!?]+/)` on a character list: chunks between
maximal runs of separator characters.  `"a..b"` gives `["a", "b"]`,
`"a."` gives `["a", ""]`, `""` gives `[""]`; the result is never the
empty list. -/
def splitSep (l : List Char) : List (List Char) := splitSepAux l []

/-- `extractLabel`:
`const sentences = content.split(/[.!?]+/);`
`return sentences[0]?.substring(0, 50) + '...' || 'Unknown';`
JS operator precedence: `+` binds before `||`; `undefined + '...'` would
be the string `"undefined..."`; the only falsy string is `""`. -/
def extractLabel (content : String) : String :=
  let sentences := splitSep content.toList
  let lbl : List Char :=
    match sentences with
    | [] => "undefined...".toList
    | s :: _ => s.take 50 ++ "...".toList
  String.mk (if lbl = [] then "Unknown".toList else lbl)

/-- The fixed ordered domain keyword table of `inferDomain`
(`Object.entries` iterates in insertion order). -/
def domainTable : List (String × List String) :=
  [("ai", ["artificial intelligence", "machine learning", "neural network", "deep learning"]),
   ("science", ["research", "study", "experiment", "theory", "hypothesis"]),
   ("technology", ["software", "hardware", "computer", "digital", "tech"]),
   ("business", ["market", "company", "economy", "finance", "business"]),
   ("general", [])]

/-- JS `s.includes(sub)`: substring containment. -/
def strIncludes (s sub : String) : Bool := decide (sub.toList <:+: s.toList)

/-- `inferDomain`: first domain of the table one of whose keywords occurs
in the lowercased content; the trailing `return 'general'` otherwise
(the `general` row has no keywords, so it never matches in the loop). -/
def inferDomain (content : String) : String :=
  let lowerContent := content.toLower
  match domainTable.find? (fun p => p.2.any (fun keyword => strIncludes lowerContent keyword)) with
  | some p => p.1
  | none => "general"

/-- `inferRelationship(nodeA, nodeB)`; at the call site `nodeA` is the
newly inserted node and `nodeB` the existing one. -/
def inferRelationship (nodeA nodeB : KnowledgeNode) : String :=
  if nodeA.type = nodeB.type then "similar_to"
  else if nodeA.type = NodeType.document ∧ nodeB.type = NodeType.concept then "contains"
  else if nodeA.type = NodeType.concept ∧ nodeB.type = NodeType.entity then "relates_to"
  else "connected_to"

/-- `calculateMetrics` (lines 280-304 of the source). -/
def calculateMetrics (g : KnowledgeGraph) : LearningMetrics :=
  let totalNodes := g.nodes.length
  let totalEdges := g.edges.length
  let averageConnectivity : ℚ :=
    if totalNodes > 0 then (totalEdges : ℚ) / (totalNodes : ℚ) else 0
  let domains := jsSetList (g.nodes.map (fun p => jsOrStr p.2.metadata.domain "unknown"))
  let growthRate : ℚ :=
    match g.learningHistory.getLast? with
    | some prev => ((totalNodes : ℚ) - (prev.totalNodes : ℚ)) / max 1 (prev.totalNodes : ℚ)
    | none => 0
  let confidenceScore : ℚ :=
    (g.nodes.foldl (fun sum p => sum + jsOrQ p.2.metadata.confidence 0.5) 0) /
      max 1 (totalNodes : ℚ)
  { totalNodes := totalNodes, totalEdges := totalEdges,
    averageConnectivity := averageConnectivity, knowledgeDomains := domains,
    growthRate := growthRate, confidenceScore := confidenceScore }

/-- `updateMetrics`: append a fresh snapshot and keep only the last 100
entries (`slice(-100)`). -/
def updateMetrics (g : KnowledgeGraph) : KnowledgeGraph :=
  let hist := g.learningHistory ++ [calculateMetrics g]
  { g with learningHistory := if hist.length > 100 then hist.drop (hist.length - 100) else hist }

/-- The reinforcement adjustment: `feedback === 'positive' ? 0.1 : -0.1`. -/
def reinforceDelta (feedback : Feedback) : ℚ :=
  match feedback with
  | Feedback.positive => 0.1
  | Feedback.negative => -0.1

/-- The in-place node update of `reinforceKnowledge`:
`node.weight = Math.max(0.1, Math.min(2.0, node.weight + adjustment));`
then, guarded by the truthiness test `if (node.metadata.confidence)`
(false for `undefined` and for `0`),
`node.metadata.confidence = Math.max(0.1, Math.min(1.0, confidence + adjustment))`. -/
def reinforceNode (adjustment : ℚ) (node : KnowledgeNode) : KnowledgeNode :=
  let node1 := { node with weight := max 0.1 (min 2.0 (node.weight + adjustment)) }
  match node1.metadata.confidence with
  | some c =>
      if c = 0 then node1
      else { node1 with metadata :=
        { node1.metadata with confidence := some (max 0.1 (min 1.0 (c + adjustment))) } }
  | none => node1

/-- `reinforceKnowledge(nodeId, feedback)`: silently returns when the
node is absent, otherwise mutates the stored node in place. -/
def reinforceKnowledge (g : KnowledgeGraph) (nodeId : String) (feedback : Feedback) :
    KnowledgeGraph :=
  match List.lookup nodeId g.nodes with
  | none => g
  | some _ =>
      { g with nodes := g.nodes.map (fun p =>
          (p.1, if p.1 = nodeId then reinforceNode (reinforceDelta feedback) p.2 else p.2)) }

/-- `a.reduce((sum, val) => sum + val * val, 0)`: the squared magnitude
sum inside `cosineSimilarity`. -/
def sumSq (a : List ℝ) : ℝ := a.foldl (fun sum val => sum + val * val) 0

/-- `a.reduce((sum, val, i) => sum + val * b[i], 0)`.  When `a` is
longer than `b`, some access `b[i]` is `undefined`, which poisons the
sum to `NaN` (modeled `none`); otherwise the sum ranges over the pairs
of `a.zip b`, which then has exactly `a.length` entries. -/
def jsDotProduct (a b : List ℝ) : Option ℝ :=
  if a.length ≤ b.length then
    some ((a.zip b).foldl (fun sum p => sum + p.1 * p.2) 0)
  else none

/-- `cosineSimilarity(a, b) = dot / (magA * magB)`.  When the
denominator is `0` the JS division `0 / 0` yields `NaN` (the numerator
is then necessarily `0` in exact arithmetic, or already `NaN` itself):
the result is modeled as `none`. -/
noncomputable def cosineSimilarity (a b : List ℝ) : Option ℝ :=
  match jsDotProduct a b with
  | none => none
  | some dot =>
      if Real.sqrt (sumSq a) * Real.sqrt (sumSq b) = 0 then none
      else some (dot / (Real.sqrt (sumSq a) * Real.sqrt (sumSq b)))

/-- JS `x > t` where `x` may be `NaN` (`none`): every ordering
comparison with `NaN` is false. -/
noncomputable def simGT (s : Option ℝ) (t : ℝ) : Bool :=
  match s with
  | none => false
  | some x => decide (t < x)

/-- The loop guard of `createConnections`:
`if (existingId === nodeId || !existingNode.embedding) continue;`
`if (similarity > 0.7)`.  True exactly for the existing entries that
receive an edge. -/
noncomputable def linkMatch (newId : String) (ea : List ℝ) (p : String × KnowledgeNode) : Bool :=
  if p.1 = newId then false
  else
    match p.2.embedding with
    | none => false
    | some eb => simGT (cosineSimilarity ea eb) 0.7

/-- The sub-list of stored entries that the `createConnections` loop
links to the new node, in iteration order. -/
noncomputable def linkTargets (nodes : List (String × KnowledgeNode)) (newId : String)
    (ea : List ℝ) : List (String × KnowledgeNode) :=
  nodes.filter (linkMatch newId ea)

/-- The edge object built for one matching existing entry.  On every
pair reaching this point the guard guarantees `p.2.embedding` is
present and the similarity is a proper number, so the `getD` defaults
are never used. -/
noncomputable def newEdge (newId : String) (newNode : KnowledgeNode) (ea : List ℝ)
    (now : ℕ) (edgeId : String) (p : String × KnowledgeNode) : KnowledgeEdge :=
  { id := edgeId, source := newId, target := p.1,
    relationship := inferRelationship newNode p.2,
    weight := (cosineSimilarity ea (p.2.embedding.getD [])).getD 0,
    timestamp := now }

/-- All edges appended by one `createConnections` run; the identifier
supply stands for the successive `crypto.randomUUID()` calls. -/
noncomputable def linkEdges (nodes : List (String × KnowledgeNode)) (newId : String)
    (newNode : KnowledgeNode) (ea : List ℝ) (now : ℕ) (supply : ℕ → String) :
    List (String × KnowledgeEdge) :=
  (linkTargets nodes newId ea).enum.map
    (fun q => (supply q.1, newEdge newId newNode ea now (supply q.1) q.2))

/-- The in-place `connections` pushes of `createConnections`: the new
node receives every matching existing id (in iteration order), each
matching existing node receives the new id once. -/
noncomputable def relinkNode (nodes : List (String × KnowledgeNode)) (newId : String)
    (ea : List ℝ) (k : String) (nd : KnowledgeNode) : KnowledgeNode :=
  if k = newId then
    { nd with connections := nd.connections ++ (linkTargets nodes newId ea).map Prod.fst }
  else if linkMatch newId ea (k, nd) then
    { nd with connections := nd.connections ++ [newId] }
  else nd

/-- `createConnections(nodeId)` (lines 161-186 of the source): returns
unchanged when the node is absent or has no embedding, otherwise adds
one edge per sufficiently similar existing node and updates the
`connections` lists on both sides. -/
noncomputable def createConnections (g : KnowledgeGraph) (nodeId : String) (now : ℕ)
    (supply : ℕ → String) : KnowledgeGraph :=
  match List.lookup nodeId g.nodes with
  | none => g
  | some newNode =>
      match newNode.embedding with
      | none => g
      | some ea =>
          { g with
            nodes := g.nodes.map (fun p => (p.1, relinkNode g.nodes nodeId ea p.1 p.2)),
            edges := g.edges ++ linkEdges g.nodes nodeId newNode ea now supply }

/-- `generateEmbedding(text)`: the embedder is applied to
`text.substring(0, 500)`; on failure (`none`) the catch block
fabricates `Array(384).fill(0).map(() => Math.random() - 0.5)`,
modeled with a pseudo-random source `rand`. -/
def generateEmbedding (embedder : String → Option (List ℝ)) (rand : ℕ → ℝ)
    (text : String) : List ℝ :=
  match embedder (text.take 500) with
  | some v => v
  | none => (List.range 384).map (fun k => rand k - 0.5)

/-- A caller-supplied partial `metadata` object: an outer `none` means
the key is absent from the object literal, `some v` that the key is
present with value `v` (`v = none` standing for an explicit
`undefined`, which the JS spread also copies). -/
structure MetadataArg where
  source : Option (Option String)
  confidence : Option (Option ℚ)
  domain : Option (Option String)

/-- The object literal `{ confidence: 0.8, domain: inferDomain(content),
...metadata }`: spread keys override the two defaults; `source` has no
default. -/
def mergeMetadata (content : String) (arg : MetadataArg) : Metadata :=
  { source := arg.source.getD none,
    confidence := arg.confidence.getD (some 0.8),
    domain := arg.domain.getD (some (inferDomain content)) }

/-- The node object literal of `addKnowledge` (lines 66-80): weight
`1`, empty `connections`, derived label and merged metadata, and the
embedding returned by `generateEmbedding` (always present). -/
def buildNode (embedder : String → Option (List ℝ)) (rand : ℕ → ℝ) (nodeId content : String)
    (ty : NodeType) (metadata : MetadataArg) (now : ℕ) : KnowledgeNode :=
  { id := nodeId, label := extractLabel content, type := ty, content := content,
    embedding := some (generateEmbedding embedder rand content),
    connections := [], weight := 1, timestamp := now,
    metadata := mergeMetadata content metadata }

/-- `addKnowledge(content, type, metadata)` (lines 62-95): build the
node, store it under the fresh id, run `createConnections`, then
`updateMetrics`.  The `saveToStorage` call is an external side effect. -/
noncomputable def addKnowledge (embedder : String → Option (List ℝ)) (rand : ℕ → ℝ)
    (g : KnowledgeGraph) (nodeId : String) (content : String) (ty : NodeType)
    (metadata : MetadataArg) (now : ℕ) (supply : ℕ → String) : KnowledgeGraph :=
  let node : KnowledgeNode := buildNode embedder rand nodeId content ty metadata now
  updateMetrics (createConnections { g with nodes := mapSet g.nodes nodeId node } nodeId now supply)

/-! Specification-side definitions.  Each follows the wording of a
claim (or of its minimally amended form) and is compared with the
corresponding definition translated from the source. -/

/-- Spec side (C10): the first sentence of a content string is the text
before the first `'.'`, `'!'` or `'?'`. -/
def firstSentence (content : String) : List Char :=
  content.toList.takeWhile (fun c => decide (c ≠ '.' ∧ c ≠ '!' ∧ c ≠ '?'))

/-- Spec side (C10): the label is the first 50 characters of the first
sentence with the three-character ellipsis appended unconditionally. -/
def labelSpec (content : String) : String :=
  String.mk ((firstSentence content).take 50 ++ "...".toList)

/-- Spec side (C4, amended): the confidence contribution of one node;
a confidence that is absent — or exactly `0`, which the JS truthiness
test `confidence || 0.5` also replaces — counts as `0.5`. -/
def confidenceContribution (n : KnowledgeNode) : ℚ :=
  match n.metadata.confidence with
  | some c => if c = 0 then 0.5 else c
  | none => 0.5

/-- Spec side (C4, amended): mean of the confidence contributions, and
`0` — not `0.5` — when there are no nodes. -/
def confidenceScoreSpec (g : KnowledgeGraph) : ℚ :=
  if g.nodes.length = 0 then 0
  else (g.nodes.map (fun p => confidenceContribution p.2)).sum / (g.nodes.length : ℚ)

/-- Spec side (C8, amended): the domain contribution of one node; a
domain that is absent — or the empty string, also falsy in JS — is
counted as `"unknown"`. -/
def domainContribution (n : KnowledgeNode) : String :=
  match n.metadata.domain with
  | some d => if d = "" then "unknown" else d
  | none => "unknown"

/-- Spec side (C6, amended): the relationship label as a function of
the two endpoint types, first argument the newly inserted node's type,
second the existing node's type; the rules are directional. -/
def specRelationship (tyNew tyExisting : NodeType) : String :=
  if tyNew = tyExisting then "similar_to"
  else if tyNew = NodeType.document ∧ tyExisting = NodeType.concept then "contains"
  else if tyNew = NodeType.concept ∧ tyExisting = NodeType.entity then "relates_to"
  else "connected_to"

/-- Spec side (C7): confidence bound `[0.1, 1.0]` for a present
confidence; an absent confidence is unconstrained. -/
def confInBounds : Option ℚ → Prop
  | none => True
  | some c => 0.1 ≤ c ∧ c ≤ 1

/-- Spec side (C7): every stored node has weight in `[0.1, 2.0]` and
any present confidence in `[0.1, 1.0]`. -/
def InBounds (g : KnowledgeGraph) : Prop :=
  ∀ p ∈ g.nodes, (0.1 ≤ p.2.weight ∧ p.2.weight ≤ 2) ∧ confInBounds p.2.metadata.confidence

/-- A sequence of reinforcement calls, applied in order. -/
def applyFeedback (g : KnowledgeGraph) (calls : List (String × Feedback)) : KnowledgeGraph :=
  calls.foldl (fun gr c => reinforceKnowledge gr c.1 c.2) g

/-- An edge touches the unordered pair `{a, b}`. -/
def edgeBetween (e : KnowledgeEdge) (a b : String) : Prop :=
  (e.source = a ∧ e.target = b) ∨ (e.source = b ∧ e.target = a)

/-- Spec side (C2): connection symmetry — for any two distinct stored
nodes, an edge between them exists iff each one's id is in the other's
`connections`. -/
def ConnSymm (g : KnowledgeGraph) : Prop :=
  ∀ aId bId na nb, aId ≠ bId →
    List.lookup aId g.nodes = some na → List.lookup bId g.nodes = some nb →
    ((∃ p ∈ g.edges, edgeBetween p.2 aId bId) ↔ bId ∈ na.connections) ∧
    (bId ∈ na.connections ↔ aId ∈ nb.connections)

/-- Referential closure: connections and edge endpoints only mention
stored node ids. -/
def Closed (g : KnowledgeGraph) : Prop :=
  (∀ p ∈ g.nodes, ∀ c ∈ p.2.connections, c ∈ g.nodes.map Prod.fst) ∧
  (∀ p ∈ g.edges, p.2.source ∈ g.nodes.map Prod.fst ∧ p.2.target ∈ g.nodes.map Prod.fst)

/-- The well-formedness invariant of the store: unique node ids,
referential closure, and connection symmetry. -/
def WellFormed (g : KnowledgeGraph) : Prop :=
  (g.nodes.map Prod.fst).Nodup ∧ Closed g ∧ ConnSymm g

/-! Concrete states used by witnesses and counterexamples. -/

/-- The empty store, the state right after construction. -/
def kgEmpty : KnowledgeGraph := { nodes := [], edges := [], learningHistory := [] }

/-- A stored node with `confidence: 0` and no `domain`, as produced by
`addKnowledge(content, type, { confidence: 0, domain: undefined })`:
the spread `...metadata` overrides both inferred defaults. -/
def probeNode : KnowledgeNode :=
  { id := "a", label := "a...", type := NodeType.concept, content := "a",
    embedding := none, connections := [], weight := 1, timestamp := 0,
    metadata := { source := none, confidence := some 0, domain := none } }

/-- A one-node store holding `probeNode`. -/
def probeGraph : KnowledgeGraph := { nodes := [("a", probeNode)], edges := [], learningHistory := [] }

/-- A stored node with the default confidence `0.8`, inside all spec
bounds. -/
def boundedNode : KnowledgeNode :=
  { id := "b", label := "b...", type := NodeType.concept, content := "b",
    embedding := none, connections := [], weight := 1, timestamp := 0,
    metadata := { source := none, confidence := some 0.8, domain := some "general" } }

/-- A one-node store holding `boundedNode`. -/
def boundedGraph : KnowledgeGraph := { nodes := [("b", boundedNode)], edges := [], learningHistory := [] }

/-- A stored `document` node with the one-dimensional embedding `[1]`. -/
def docNode : KnowledgeNode :=
  { id := "m", label := "m...", type := NodeType.document, content := "m",
    embedding := some [1], connections := [], weight := 1, timestamp := 0,
    metadata := { source := none, confidence := some 0.8, domain := some "general" } }

/-- A one-node store holding `docNode`. -/
def docGraph : KnowledgeGraph := { nodes := [("m", docNode)], edges := [], learningHistory := [] }

/-- A stored `concept` node with the all-zero one-dimensional embedding
`[0]`. -/
def zeroVecNode : KnowledgeNode :=
  { id := "z", label := "z...", type := NodeType.concept, content := "z",
    embedding := some [0], connections := [], weight := 1, timestamp := 0,
    metadata := { source := none, confidence := some 0.8, domain := some "general" } }

/-- A one-node store holding `zeroVecNode`. -/
def zeroVecGraph : KnowledgeGraph :=
  { nodes := [("z", zeroVecNode)], edges := [], learningHistory := [] }

/-! Helper lemmas. -/

theorem kg_foldl_add (f : String × KnowledgeNode → ℚ) (l : List (String × KnowledgeNode))
    (init : ℚ) : l.foldl (fun s p => s + f p) init = init + (l.map f).sum := by
  induction l generalizing init with
  | nil => simp
  | cons a t ih => simp [List.foldl_cons, ih, add_assoc]

theorem kg_jsOrQ_conf (n : KnowledgeNode) :
    jsOrQ n.metadata.confidence 0.5 = confidenceContribution n := by
  cases h : n.metadata.confidence <;> simp [jsOrQ, confidenceContribution, h]

theorem kg_jsOrStr_domain (n : KnowledgeNode) :
    jsOrStr n.metadata.domain "unknown" = domainContribution n := by
  cases h : n.metadata.domain <;> simp [jsOrStr, domainContribution, h]

theorem kg_jsSetList_mem_aux (l acc : List String) (d : String) :
    d ∈ l.foldl (fun acc d => if d ∈ acc then acc else acc ++ [d]) acc ↔ d ∈ acc ∨ d ∈ l := by
  induction l generalizing acc with
  | nil => simp
  | cons a t ih =>
      by_cases h : a ∈ acc
      · simp only [List.foldl_cons, if_pos h, ih, List.mem_cons]
        constructor
        · rintro (hd | hd)
          · exact Or.inl hd
          · exact Or.inr (Or.inr hd)
        · rintro (hd | hd | hd)
          · exact Or.inl hd
          · exact Or.inl (hd ▸ h)
          · exact Or.inr hd
      · simp only [List.foldl_cons, if_neg h, ih, List.mem_append, List.mem_singleton,
          List.mem_cons]
        tauto

theorem kg_jsSetList_nodup_aux (l acc : List String) (h : acc.Nodup) :
    (l.foldl (fun acc d => if d ∈ acc then acc else acc ++ [d]) acc).Nodup := by
  induction l generalizing acc with
  | nil => simpa
  | cons a t ih =>
      by_cases ha : a ∈ acc
      · simpa [List.foldl_cons, if_pos ha] using ih acc h
      · simp only [List.foldl_cons, if_neg ha]
        refine ih (acc ++ [a]) ?_
        simp [List.nodup_append, h, ha]

theorem kg_lookup_map_keyfun (f : String → KnowledgeNode → KnowledgeNode)
    (l : List (String × KnowledgeNode)) (k : String) :
    List.lookup k (l.map (fun p => (p.1, f p.1 p.2))) = (List.lookup k l).map (f k) := by
  induction l with
  | nil => rfl
  | cons p t ih =>
      obtain ⟨a, b⟩ := p
      by_cases h : k = a
      · subst h; simp [List.lookup]
      · simp [List.lookup, h, ih, beq_eq_false_iff_ne.mpr h]

theorem kg_splitSepAux_head (l : List Char) :
    ∀ acc : List Char, ∃ t, splitSepAux l acc
      = (acc.reverse ++ l.takeWhile (fun c => !isSentenceSep c)) :: t := by
  induction l with
  | nil => exact fun acc => ⟨[], by simp [splitSepAux]⟩
  | cons c rest ih =>
      intro acc
      by_cases h : isSentenceSep c
      · exact ⟨splitSepGap rest, by simp [splitSepAux, h]⟩
      · obtain ⟨t, ht⟩ := ih (c :: acc)
        refine ⟨t, ?_⟩
        simp only [splitSepAux, h, if_neg, Bool.false_eq_true, ↓reduceIte, ht,
          List.takeWhile_cons, Bool.not_eq_true']
        simp [h, List.append_assoc]

/-! Claim theorems. -/

/-- C9: calling reinforce with a node id not present in the store is a
silent no-op for any feedback value: it raises no error and leaves the
entire graph state (nodes, edges, connections, metrics history)
unchanged. -/
theorem C9_reinforce_missing_noop (g : KnowledgeGraph) (nodeId : String)
    (feedback : Feedback) (h : List.lookup nodeId g.nodes = none) :
    reinforceKnowledge g nodeId feedback = g := by
  simp [reinforceKnowledge, h]

/-- Witness for C9 at the empty store. -/
theorem C9_reinforce_missing_noop_witness :
    List.lookup "a" kgEmpty.nodes = none ∧
    reinforceKnowledge kgEmpty "a" Feedback.positive = kgEmpty :=
  ⟨rfl, C9_reinforce_missing_noop kgEmpty "a" Feedback.positive rfl⟩

/-- C4 counterexample: on the empty store the recorded confidenceScore
is `0` (the sum over no nodes divided by `max 1 0 = 1`), not `0.5` as
the claim states; moreover a stored confidence of exactly `0` is
replaced by the default `0.5` (JS `confidence || 0.5` treats `0` as
falsy), whereas the claim's mean would count it as `0`. -/
theorem C4_confidence_counterexample :
    (calculateMetrics kgEmpty).confidenceScore = 0 ∧
    (0 : ℚ) ≠ 0.5 ∧
    (calculateMetrics probeGraph).confidenceScore = 0.5 ∧
    (0.5 : ℚ) ≠ 0 := by
  refine ⟨?_, by norm_num, ?_, by norm_num⟩
  · simp [calculateMetrics, kgEmpty]
  · simp [calculateMetrics, probeGraph, probeNode, jsOrQ]

/-- C4 (amended): the recorded confidenceScore equals the mean of
`metadata.confidence` over all nodes, a confidence that is missing or
exactly `0` counted as `0.5`; when the store holds no nodes the score
is `0`. -/
theorem C4_confidence_score_amended (g : KnowledgeGraph) :
    (calculateMetrics g).confidenceScore = confidenceScoreSpec g := by
  have hmap : g.nodes.map (fun p => jsOrQ p.2.metadata.confidence 0.5)
      = g.nodes.map (fun p => confidenceContribution p.2) :=
    List.map_congr_left (fun p _ => kg_jsOrQ_conf p.2)
  simp only [calculateMetrics, confidenceScoreSpec]
  rw [kg_foldl_add (fun p => jsOrQ p.2.metadata.confidence 0.5) g.nodes 0, zero_add, hmap]
  by_cases h : g.nodes.length = 0
  · rw [List.length_eq_zero.mp h]
    simp
  · rw [if_neg h]
    have h1 : (1 : ℚ) ≤ (g.nodes.length : ℚ) := by
      have := Nat.one_le_iff_ne_zero.mpr h
      exact_mod_cast this
    rw [max_eq_right h1]

/-- C8 counterexample: a stored node with no `metadata.domain`
contributes the string `"unknown"` to knowledgeDomains
(`node.metadata.domain || 'unknown'`), so the aggregate is
`["unknown"]` and not the empty set the claim requires. -/
theorem C8_domains_counterexample :
    probeNode.metadata.domain = none ∧
    (calculateMetrics probeGraph).knowledgeDomains = ["unknown"] ∧
    (["unknown"] : List String) ≠ [] := by
  refine ⟨rfl, by decide, by decide⟩

/-- C8 (amended): knowledgeDomains is exactly the distinct set of the
per-node domain values where a missing (or empty, also falsy) domain is
counted as `"unknown"`: the list is duplicate-free and contains a
string iff some stored node contributes it. -/
theorem C8_domains_amended (g : KnowledgeGraph) :
    (calculateMetrics g).knowledgeDomains.Nodup ∧
    ∀ d, d ∈ (calculateMetrics g).knowledgeDomains ↔
      ∃ p ∈ g.nodes, domainContribution p.2 = d := by
  have hmap : g.nodes.map (fun p => jsOrStr p.2.metadata.domain "unknown")
      = g.nodes.map (fun p => domainContribution p.2) :=
    List.map_congr_left (fun p _ => kg_jsOrStr_domain p.2)
  constructor
  · simp only [calculateMetrics]
    exact kg_jsSetList_nodup_aux _ _ List.nodup_nil
  · intro d
    simp only [calculateMetrics, jsSetList]
    rw [kg_jsSetList_mem_aux, hmap]
    simp [List.mem_map]

theorem kg_reinforceNode_weight_eq (d : ℚ) (n : KnowledgeNode) :
    (reinforceNode d n).weight = max 0.1 (min 2.0 (n.weight + d)) := by
  cases h : n.metadata.confidence with
  | none => simp [reinforceNode, h]
  | some c => by_cases hc : c = 0 <;> simp [reinforceNode, h, hc]

theorem kg_reinforceNode_conf (d : ℚ) (n : KnowledgeNode) :
    (reinforceNode d n).metadata.confidence =
      (match n.metadata.confidence with
       | some c => if c = 0 then some 0 else some (max 0.1 (min 1.0 (c + d)))
       | none => none) := by
  cases h : n.metadata.confidence with
  | none => simp [reinforceNode, h]
  | some c =>
      by_cases hc : c = 0
      · subst hc; simp [reinforceNode, h]
      · simp [reinforceNode, h, hc]

theorem kg_reinforceNode_inbounds (d : ℚ) (n : KnowledgeNode)
    (hc : confInBounds n.metadata.confidence) :
    (0.1 ≤ (reinforceNode d n).weight ∧ (reinforceNode d n).weight ≤ 2) ∧
    confInBounds (reinforceNode d n).metadata.confidence := by
  refine ⟨?_, ?_⟩
  · rw [kg_reinforceNode_weight_eq]
    exact ⟨le_max_left _ _,
      max_le (by norm_num) (le_trans (min_le_left _ _) (by norm_num))⟩
  · cases h : n.metadata.confidence with
    | none => simp [kg_reinforceNode_conf, h, confInBounds]
    | some c =>
        rw [h] at hc
        have hc0 : ¬ c = 0 := by
          intro h0
          rw [h0] at hc
          exact absurd hc.1 (by norm_num)
        simp only [kg_reinforceNode_conf, h, if_neg hc0, confInBounds]
        exact ⟨le_max_left _ _,
          max_le (by norm_num) (le_trans (min_le_left _ _) (by norm_num))⟩

theorem kg_reinforce_preserves_inbounds (g : KnowledgeGraph) (nodeId : String) (fb : Feedback)
    (h : InBounds g) : InBounds (reinforceKnowledge g nodeId fb) := by
  unfold reinforceKnowledge
  cases hl : List.lookup nodeId g.nodes with
  | none => exact h
  | some n0 =>
      intro p hp
      simp only [List.mem_map] at hp
      obtain ⟨q, hq, rfl⟩ := hp
      by_cases hk : q.1 = nodeId
      · simp only [if_pos hk]
        exact kg_reinforceNode_inbounds _ _ ((h q hq).2)
      · simp only [if_neg hk]
        exact h q hq

theorem kg_applyFeedback_inbounds (calls : List (String × Feedback)) (g : KnowledgeGraph)
    (h : InBounds g) : InBounds (applyFeedback g calls) := by
  induction calls generalizing g with
  | nil => exact h
  | cons c t ih => exact ih _ (kg_reinforce_preserves_inbounds _ _ _ h)

/-- C7 counterexample: a node stored with `metadata.confidence`
present and exactly `0` is not adjusted by reinforce: the truthiness
guard `if (node.metadata.confidence)` is false for `0`, so positive
feedback leaves the confidence at `0` instead of the claimed
`max 0.1 (min 1.0 (0 + 0.1)) = 0.1`.  (Such a node is produced by
`addKnowledge(content, type, { confidence: 0 })`: the spread overrides
the default `0.8`.) -/
theorem C7_zero_confidence_counterexample :
    probeNode.metadata.confidence = some 0 ∧
    (List.lookup "a" (reinforceKnowledge probeGraph "a" Feedback.positive).nodes).map
      (fun n => n.metadata.confidence) = some (some 0) ∧
    max 0.1 (min 1.0 ((0 : ℚ) + reinforceDelta Feedback.positive)) = 0.1 ∧
    (some (some (0 : ℚ)) : Option (Option ℚ)) ≠ some (some 0.1) := by
  refine ⟨rfl, ?_, ?_, ?_⟩
  · simp [reinforceKnowledge, probeGraph, probeNode, List.lookup, reinforceNode, reinforceDelta]
  · simp only [reinforceDelta]
    norm_num
  · simp only [ne_eq, Option.some.injEq]
    norm_num

/-- C7 (amended): for every node present in the store, reinforce
applies delta `+0.1` (positive) or `-0.1` (negative) to the node's
weight clamped into `[0.1, 2.0]`; whenever `metadata.confidence` is
present and nonzero (JS truthiness) it applies the same delta to it
clamped into `[0.1, 1.0]`, while a present confidence of exactly `0`
is left unchanged; and under any sequence of reinforce calls, weights
within `[0.1, 2.0]` and present confidences within `[0.1, 1.0]` never
leave those ranges. -/
theorem C7_reinforce_amended :
    (∀ (g : KnowledgeGraph) (nodeId : String) (fb : Feedback) (n : KnowledgeNode),
      List.lookup nodeId g.nodes = some n →
      ∃ n', List.lookup nodeId (reinforceKnowledge g nodeId fb).nodes = some n' ∧
        n'.weight = max 0.1 (min 2.0 (n.weight + reinforceDelta fb)) ∧
        n'.metadata.confidence =
          (match n.metadata.confidence with
           | some c => if c = 0 then some 0 else some (max 0.1 (min 1.0 (c + reinforceDelta fb)))
           | none => none)) ∧
    ∀ (g : KnowledgeGraph) (calls : List (String × Feedback)),
      InBounds g → InBounds (applyFeedback g calls) := by
  constructor
  · intro g nodeId fb n hn
    refine ⟨reinforceNode (reinforceDelta fb) n, ?_, kg_reinforceNode_weight_eq _ _,
      kg_reinforceNode_conf _ _⟩
    unfold reinforceKnowledge
    rw [hn]
    have hmap := kg_lookup_map_keyfun
      (fun k nd => if k = nodeId then reinforceNode (reinforceDelta fb) nd else nd) g.nodes nodeId
    simp only at hmap
    rw [hmap, hn]
    simp
  · intro g calls h
    exact kg_applyFeedback_inbounds calls g h

/-- Witness for C7 (amended) at a one-node store with weight `1` and
confidence `0.8`. -/
theorem C7_reinforce_amended_witness :
    (∃ n', List.lookup "b" (reinforceKnowledge boundedGraph "b" Feedback.positive).nodes = some n' ∧
      n'.weight = max 0.1 (min 2.0 (boundedNode.weight + reinforceDelta Feedback.positive)) ∧
      n'.metadata.confidence =
        (match boundedNode.metadata.confidence with
         | some c => if c = 0 then some 0
             else some (max 0.1 (min 1.0 (c + reinforceDelta Feedback.positive)))
         | none => none)) ∧
    InBounds (applyFeedback boundedGraph [("b", Feedback.positive)]) := by
  constructor
  · exact C7_reinforce_amended.1 boundedGraph "b" Feedback.positive boundedNode rfl
  · refine C7_reinforce_amended.2 boundedGraph _ ?_
    intro p hp
    simp only [boundedGraph, List.mem_singleton] at hp
    subst hp
    refine ⟨⟨?_, ?_⟩, ?_⟩
    · show (0.1 : ℚ) ≤ 1
      norm_num
    · show (1 : ℚ) ≤ 2
      norm_num
    · show (0.1 : ℚ) ≤ 0.8 ∧ (0.8 : ℚ) ≤ 1
      norm_num

/-- C10: for every content string the derived node label equals the
first 50 characters of the first sentence (the text before the first
`'.'`, `'!'` or `'?'`) with the three-character ellipsis appended
unconditionally — also when the first sentence is shorter than 50
characters; for empty content the label is exactly `"..."`; and the
`'Unknown'` fallback branch is never taken (the computed label always
ends in the ellipsis, so it is never the falsy empty string, and the
result in particular never equals `"Unknown"`). -/
theorem C10_label_derivation :
    (∀ content : String, extractLabel content = labelSpec content) ∧
    extractLabel "" = "..." ∧
    ∀ content : String, extractLabel content ≠ "Unknown" := by
  have hpred : (fun c => !isSentenceSep c)
      = (fun c => decide (c ≠ '.' ∧ c ≠ '!' ∧ c ≠ '?')) := by
    funext c
    by_cases h1 : c = '.' <;> by_cases h2 : c = '!' <;> by_cases h3 : c = '?' <;>
      simp [isSentenceSep, h1, h2, h3]
  have key : ∀ content : String, extractLabel content = labelSpec content := by
    intro content
    obtain ⟨t, ht⟩ := kg_splitSepAux_head content.toList []
    simp only [List.reverse_nil, List.nil_append] at ht
    have hne : ¬ ((content.toList.takeWhile (fun c => !isSentenceSep c)).take 50
        ++ "...".toList = ([] : List Char)) := by
      simp
    simp only [extractLabel, splitSep, ht, labelSpec, firstSentence]
    rw [if_neg hne, hpred]
  refine ⟨key, ?_, ?_⟩
  · rw [key]
    rfl
  · intro content h
    rw [key] at h
    have hlist : (firstSentence content).take 50 ++ "...".toList = "Unknown".toList :=
      congrArg String.toList h
    have hlast := congrArg List.getLast? hlist
    rw [List.getLast?_append_of_ne_nil _ (by simp)] at hlast
    simp at hlast

/-- C3 (code bug): when embedding generation fails, `addKnowledge` does
NOT store the node with an absent embedding: the catch block of
`generateEmbedding` fabricates a 384-entry pseudo-random vector
(`Array(384).fill(0).map(() => Math.random() - 0.5)`) and the node is
stored with that vector as its embedding, so it is not excluded from
later similarity linking.  Evaluated on the failing input
`embedder = fun _ => none` (the embedder throwing), inserting into the
empty store. -/
theorem C3_embedding_failure_code_bug :
    ∃ n, List.lookup "a"
        (addKnowledge (fun _ => none) (fun _ => 0) kgEmpty "a" "hello" NodeType.concept
          ⟨none, none, none⟩ 0 (fun _ => "e")).nodes = some n ∧
      ∃ v, n.embedding = some v ∧ v.length = 384 := by
  refine ⟨_, rfl, (List.range 384).map (fun _ => (0 : ℝ) - 0.5), rfl, ?_⟩
  rw [List.length_map, List.length_range]

theorem kg_lookup_eq_none {β : Type} (k : String) (l : List (String × β))
    (h : k ∉ l.map Prod.fst) : List.lookup k l = none := by
  induction l with
  | nil => rfl
  | cons p t ih =>
      obtain ⟨a, b⟩ := p
      simp only [List.map_cons, List.mem_cons, not_or] at h
      rw [List.lookup_cons, beq_eq_false_iff_ne.mpr h.1]
      exact ih h.2

theorem kg_lookup_append_left {β : Type} {k : String} {v : β} {l1 : List (String × β)}
    (l2 : List (String × β)) (h : List.lookup k l1 = some v) :
    List.lookup k (l1 ++ l2) = some v := by
  induction l1 with
  | nil => simp [List.lookup] at h
  | cons p t ih =>
      obtain ⟨a, b⟩ := p
      rw [List.lookup_cons] at h
      rw [List.cons_append, List.lookup_cons]
      cases hk : (k == a) with
      | true => rw [hk] at h; exact h
      | false => rw [hk] at h; exact ih h

theorem kg_lookup_append_right {β : Type} {k : String} {l1 : List (String × β)}
    (l2 : List (String × β)) (h : k ∉ l1.map Prod.fst) :
    List.lookup k (l1 ++ l2) = List.lookup k l2 := by
  induction l1 with
  | nil => rfl
  | cons p t ih =>
      obtain ⟨a, b⟩ := p
      simp only [List.map_cons, List.mem_cons, not_or] at h
      rw [List.cons_append, List.lookup_cons, beq_eq_false_iff_ne.mpr h.1]
      exact ih h.2

theorem kg_mem_of_lookup {β : Type} {k : String} {v : β} {l : List (String × β)}
    (h : List.lookup k l = some v) : (k, v) ∈ l := by
  induction l with
  | nil => simp [List.lookup] at h
  | cons p t ih =>
      obtain ⟨a, b⟩ := p
      rw [List.lookup_cons] at h
      cases hk : (k == a) with
      | true =>
          rw [hk] at h
          injection h with hbv
          have hka : k = a := eq_of_beq hk
          subst hka
          subst hbv
          exact List.mem_cons_self _ _
      | false =>
          rw [hk] at h
          exact List.mem_cons_of_mem _ (ih h)

theorem kg_lookup_of_mem_nodup {β : Type} {k : String} {v : β} {l : List (String × β)}
    (hnd : (l.map Prod.fst).Nodup) (h : (k, v) ∈ l) : List.lookup k l = some v := by
  induction l with
  | nil => simp at h
  | cons p t ih =>
      obtain ⟨a, b⟩ := p
      simp only [List.map_cons, List.nodup_cons] at hnd
      rcases List.mem_cons.mp h with heq | hmem
      · cases heq
        rw [List.lookup_cons, beq_self_eq_true]
      · have hka : ¬ k = a := by
          intro he
          subst he
          exact hnd.1 (List.mem_map_of_mem Prod.fst hmem)
        rw [List.lookup_cons, beq_eq_false_iff_ne.mpr hka]
        exact ih hnd.2 hmem

theorem kg_mapSet_fresh (m : List (String × KnowledgeNode)) (k : String) (v : KnowledgeNode)
    (h : k ∉ m.map Prod.fst) : mapSet m k v = m ++ [(k, v)] := by
  simp [mapSet, h]

theorem kg_updateMetrics_nodes (g : KnowledgeGraph) : (updateMetrics g).nodes = g.nodes := rfl

theorem kg_updateMetrics_edges (g : KnowledgeGraph) : (updateMetrics g).edges = g.edges := rfl

theorem kg_addKnowledge_eq (embedder : String → Option (List ℝ)) (rand : ℕ → ℝ)
    (g : KnowledgeGraph) (nodeId content : String) (ty : NodeType) (meta : MetadataArg)
    (now : ℕ) (supply : ℕ → String)
    (hfresh : nodeId ∉ g.nodes.map Prod.fst) :
    addKnowledge embedder rand g nodeId content ty meta now supply =
      updateMetrics
        { nodes := (g.nodes ++ [(nodeId, buildNode embedder rand nodeId content ty meta now)]).map
            (fun p => (p.1, relinkNode
              (g.nodes ++ [(nodeId, buildNode embedder rand nodeId content ty meta now)])
              nodeId (generateEmbedding embedder rand content) p.1 p.2)),
          edges := g.edges ++ linkEdges
            (g.nodes ++ [(nodeId, buildNode embedder rand nodeId content ty meta now)])
            nodeId (buildNode embedder rand nodeId content ty meta now)
            (generateEmbedding embedder rand content) now supply,
          learningHistory := g.learningHistory } := by
  have hl : List.lookup nodeId
      (g.nodes ++ [(nodeId, buildNode embedder rand nodeId content ty meta now)])
      = some (buildNode embedder rand nodeId content ty meta now) := by
    rw [kg_lookup_append_right _ hfresh, List.lookup_cons, beq_self_eq_true]
  have hbe : (buildNode embedder rand nodeId content ty meta now).embedding
      = some (generateEmbedding embedder rand content) := rfl
  unfold addKnowledge createConnections
  simp only [kg_mapSet_fresh _ _ _ hfresh, hl, hbe]

theorem kg_linkEdges_targets (nodes : List (String × KnowledgeNode)) (newId : String)
    (newNode : KnowledgeNode) (ea : List ℝ) (now : ℕ) (supply : ℕ → String) :
    (linkEdges nodes newId newNode ea now supply).map (fun p => p.2.target)
      = (linkTargets nodes newId ea).map Prod.fst := by
  unfold linkEdges
  rw [List.map_map]
  have h1 : ((fun p : String × KnowledgeEdge => p.2.target) ∘
      (fun q : ℕ × (String × KnowledgeNode) =>
        (supply q.1, newEdge newId newNode ea now (supply q.1) q.2)))
      = (Prod.fst ∘ Prod.snd) := rfl
  rw [h1, ← List.map_map, List.enum_map_snd]

theorem kg_mem_linkEdges {nodes : List (String × KnowledgeNode)} {newId : String}
    {newNode : KnowledgeNode} {ea : List ℝ} {now : ℕ} {supply : ℕ → String}
    {p : String × KnowledgeEdge} (hp : p ∈ linkEdges nodes newId newNode ea now supply) :
    ∃ q ∈ linkTargets nodes newId ea, p.2 = newEdge newId newNode ea now p.1 q := by
  unfold linkEdges at hp
  obtain ⟨q, hq, rfl⟩ := List.mem_map.mp hp
  refine ⟨q.2, ?_, rfl⟩
  have hmem := List.mem_map_of_mem Prod.snd hq
  rwa [List.enum_map_snd] at hmem

theorem kg_linkMatch_ne {newId : String} {ea : List ℝ} {p : String × KnowledgeNode}
    (h : linkMatch newId ea p = true) : p.1 ≠ newId := by
  intro he
  unfold linkMatch at h
  rw [if_pos he] at h
  exact Bool.false_ne_true h

theorem kg_snd_eq_of_mem {nodes : List (String × KnowledgeNode)} {mId : String}
    {m : KnowledgeNode} (hnd : (nodes.map Prod.fst).Nodup)
    (hm : List.lookup mId nodes = some m) {q : String × KnowledgeNode}
    (hqmem : q ∈ nodes) (hq1 : q.1 = mId) : q.2 = m := by
  have h1 : List.lookup q.1 nodes = some q.2 := kg_lookup_of_mem_nodup hnd hqmem
  rw [hq1, hm] at h1
  injection h1 with h2
  exact h2.symm

theorem kg_mem_linkTargets_keys {nodes : List (String × KnowledgeNode)} {mId : String}
    {m : KnowledgeNode} (newId : String) (ea : List ℝ)
    (hnd : (nodes.map Prod.fst).Nodup) (hm : List.lookup mId nodes = some m) :
    mId ∈ (linkTargets nodes newId ea).map Prod.fst ↔ linkMatch newId ea (mId, m) = true := by
  unfold linkTargets
  constructor
  · intro h
    obtain ⟨q, hq, hqe⟩ := List.mem_map.mp h
    obtain ⟨hqmem, hqmatch⟩ := List.mem_filter.mp hq
    have hq2 : q.2 = m := kg_snd_eq_of_mem hnd hm hqmem hqe
    have hqp : q = (mId, m) := Prod.ext hqe hq2
    rwa [hqp] at hqmatch
  · intro h
    exact List.mem_map.mpr ⟨(mId, m), List.mem_filter.mpr ⟨kg_mem_of_lookup hm, h⟩, rfl⟩

theorem kg_linkTargets_keys_nodup {nodes : List (String × KnowledgeNode)}
    (newId : String) (ea : List ℝ) (hnd : (nodes.map Prod.fst).Nodup) :
    ((linkTargets nodes newId ea).map Prod.fst).Nodup := by
  have hsub : List.Sublist ((linkTargets nodes newId ea).map Prod.fst) (nodes.map Prod.fst) :=
    List.Sublist.map Prod.fst (List.filter_sublist nodes)
  exact hnd.sublist hsub

theorem kg_linkEdges_target_fields {nodes : List (String × KnowledgeNode)} {mId : String}
    {m : KnowledgeNode} (newId : String) (newNode : KnowledgeNode) (ea : List ℝ) (now : ℕ)
    (supply : ℕ → String) (hnd : (nodes.map Prod.fst).Nodup)
    (hm : List.lookup mId nodes = some m) :
    ∀ p ∈ linkEdges nodes newId newNode ea now supply, p.2.target = mId →
      p.2.weight = (cosineSimilarity ea (m.embedding.getD [])).getD 0 ∧
      p.2.relationship = inferRelationship newNode m := by
  intro p hp ht
  obtain ⟨q, hq, hpe⟩ := kg_mem_linkEdges hp
  obtain ⟨hqmem, hqmatch⟩ := List.mem_filter.mp hq
  have hq1 : q.1 = mId := by
    rw [hpe] at ht
    exact ht
  have hq2 : q.2 = m := kg_snd_eq_of_mem hnd hm hqmem hq1
  have hqp : q = (mId, m) := Prod.ext hq1 hq2
  rw [hpe, hqp]
  exact ⟨rfl, rfl⟩

theorem kg_linkEdges_source_ne {nodes : List (String × KnowledgeNode)} (newId : String)
    (newNode : KnowledgeNode) (ea : List ℝ) (now : ℕ) (supply : ℕ → String) :
    ∀ p ∈ linkEdges nodes newId newNode ea now supply,
      p.2.source = newId ∧ p.2.target ≠ newId := by
  intro p hp
  obtain ⟨q, hq, hpe⟩ := kg_mem_linkEdges hp
  obtain ⟨hqmem, hqmatch⟩ := List.mem_filter.mp hq
  rw [hpe]
  exact ⟨rfl, kg_linkMatch_ne hqmatch⟩

theorem kg_cosSim_zero_mag (a b : List ℝ) (h : sumSq a = 0 ∨ sumSq b = 0) :
    cosineSimilarity a b = none := by
  unfold cosineSimilarity
  cases hd : jsDotProduct a b with
  | none => rfl
  | some d =>
      have hz : Real.sqrt (sumSq a) * Real.sqrt (sumSq b) = 0 := by
        rcases h with h | h <;> rw [h, Real.sqrt_zero] <;> ring
      show (if Real.sqrt (sumSq a) * Real.sqrt (sumSq b) = 0 then none
        else some (d / (Real.sqrt (sumSq a) * Real.sqrt (sumSq b)))) = none
      rw [if_pos hz]

theorem kg_cosSim_one : cosineSimilarity [(1 : ℝ)] [(1 : ℝ)] = some 1 := by
  have hd : jsDotProduct [(1 : ℝ)] [(1 : ℝ)] = some 1 := by
    norm_num [jsDotProduct]
  have hsq : sumSq [(1 : ℝ)] = 1 := by
    norm_num [sumSq]
  unfold cosineSimilarity
  rw [hd, hsq, Real.sqrt_one]
  norm_num

theorem kg_addKnowledge_edges (embedder : String → Option (List ℝ)) (rand : ℕ → ℝ)
    (g : KnowledgeGraph) (nodeId content : String) (ty : NodeType) (meta : MetadataArg)
    (now : ℕ) (supply : ℕ → String) (hfresh : nodeId ∉ g.nodes.map Prod.fst) :
    (addKnowledge embedder rand g nodeId content ty meta now supply).edges
      = g.edges ++ linkEdges
          (g.nodes ++ [(nodeId, buildNode embedder rand nodeId content ty meta now)])
          nodeId (buildNode embedder rand nodeId content ty meta now)
          (generateEmbedding embedder rand content) now supply := by
  rw [kg_addKnowledge_eq embedder rand g nodeId content ty meta now supply hfresh,
    kg_updateMetrics_edges]

theorem kg_addKnowledge_nodes (embedder : String → Option (List ℝ)) (rand : ℕ → ℝ)
    (g : KnowledgeGraph) (nodeId content : String) (ty : NodeType) (meta : MetadataArg)
    (now : ℕ) (supply : ℕ → String) (hfresh : nodeId ∉ g.nodes.map Prod.fst) :
    (addKnowledge embedder rand g nodeId content ty meta now supply).nodes
      = (g.nodes ++ [(nodeId, buildNode embedder rand nodeId content ty meta now)]).map
          (fun p => (p.1, relinkNode
            (g.nodes ++ [(nodeId, buildNode embedder rand nodeId content ty meta now)])
            nodeId (generateEmbedding embedder rand content) p.1 p.2)) := by
  rw [kg_addKnowledge_eq embedder rand g nodeId content ty meta now supply hfresh,
    kg_updateMetrics_nodes]

/-- C1: on insertion of a node `n` that has an embedding, for every
other already-stored node `m` with an embedding whose cosine similarity
to `n` is the proper number `s` (not `NaN`), exactly one new edge
`(n, m)` is appended iff `s > 0.7` strictly (counted as the number of
new edges whose target is `m`; every new edge has source `n`), the
created edge's weight equals `s`, no edge is created at or below the
threshold, and no created edge ever has equal endpoints. -/
theorem C1_similarity_linking
    (embedder : String → Option (List ℝ)) (rand : ℕ → ℝ) (g : KnowledgeGraph)
    (nodeId content : String) (ty : NodeType) (meta : MetadataArg) (now : ℕ)
    (supply : ℕ → String) (mId : String) (m : KnowledgeNode) (em ea : List ℝ) (s : ℝ)
    (hkeys : (g.nodes.map Prod.fst).Nodup)
    (hfresh : nodeId ∉ g.nodes.map Prod.fst)
    (hemb : embedder (content.take 500) = some ea)
    (hm : List.lookup mId g.nodes = some m)
    (hme : m.embedding = some em)
    (hs : cosineSimilarity ea em = some s) :
    ∃ newE, (addKnowledge embedder rand g nodeId content ty meta now supply).edges
        = g.edges ++ newE ∧
      (newE.map (fun p => p.2.target)).count mId = (if 0.7 < s then 1 else 0) ∧
      (∀ p ∈ newE, p.2.source = nodeId ∧ p.2.target ≠ nodeId) ∧
      (∀ p ∈ newE, p.2.target = mId → p.2.weight = s) := by
  have hea : generateEmbedding embedder rand content = ea := by
    unfold generateEmbedding
    rw [hemb]
  set node := buildNode embedder rand nodeId content ty meta now with hnode
  set N := g.nodes ++ [(nodeId, node)] with hN
  have hNnodup : (N.map Prod.fst).Nodup := by
    rw [hN]
    simp [List.nodup_append, hkeys, hfresh]
  have hmN : List.lookup mId N = some m := kg_lookup_append_left _ hm
  have hmIdmem : mId ∈ g.nodes.map Prod.fst :=
    List.mem_map_of_mem Prod.fst (kg_mem_of_lookup hm)
  have hmne : mId ≠ nodeId := fun he => hfresh (he ▸ hmIdmem)
  have hlm : linkMatch nodeId ea (mId, m) = decide (0.7 < s) := by
    unfold linkMatch
    rw [if_neg hmne]
    show (match m.embedding with
      | none => false
      | some eb => simGT (cosineSimilarity ea eb) 0.7) = decide (0.7 < s)
    rw [hme]
    show simGT (cosineSimilarity ea em) 0.7 = decide (0.7 < s)
    rw [hs]
    rfl
  refine ⟨linkEdges N nodeId node ea now supply, ?_, ?_, ?_, ?_⟩
  · rw [kg_addKnowledge_edges embedder rand g nodeId content ty meta now supply hfresh, hea]
  · rw [kg_linkEdges_targets]
    by_cases hgt : 0.7 < s
    · rw [if_pos hgt]
      have hmem : mId ∈ (linkTargets N nodeId ea).map Prod.fst :=
        (kg_mem_linkTargets_keys nodeId ea hNnodup hmN).mpr
          (by rw [hlm]; exact decide_eq_true hgt)
      exact List.count_eq_one_of_mem (kg_linkTargets_keys_nodup nodeId ea hNnodup) hmem
    · rw [if_neg hgt]
      have hnmem : mId ∉ (linkTargets N nodeId ea).map Prod.fst := by
        intro hmem
        have := (kg_mem_linkTargets_keys nodeId ea hNnodup hmN).mp hmem
        rw [hlm] at this
        exact hgt (of_decide_eq_true this)
      exact List.count_eq_zero_of_not_mem hnmem
  · exact kg_linkEdges_source_ne nodeId node ea now supply
  · intro p hp ht
    have hw := (kg_linkEdges_target_fields nodeId node ea now supply hNnodup hmN p hp ht).1
    rw [hw, hme]
    show (cosineSimilarity ea em).getD 0 = s
    rw [hs]
    rfl

/-- Witness for C1 at a concrete insertion: one stored node with
embedding `[1]`, the inserted node also embeds to `[1]`, similarity
`1 > 0.7`. -/
theorem C1_similarity_linking_witness :
    ∃ newE, (addKnowledge (fun _ => some [(1 : ℝ)]) (fun _ => 0) docGraph "n" "x"
        NodeType.concept ⟨none, none, none⟩ 0 (fun _ => "e")).edges
        = docGraph.edges ++ newE ∧
      (newE.map (fun p => p.2.target)).count "m" = (if (0.7 : ℝ) < 1 then 1 else 0) ∧
      (∀ p ∈ newE, p.2.source = "n" ∧ p.2.target ≠ "n") ∧
      (∀ p ∈ newE, p.2.target = "m" → p.2.weight = 1) := by
  refine C1_similarity_linking (fun _ => some [(1 : ℝ)]) (fun _ => 0) docGraph "n" "x"
    NodeType.concept ⟨none, none, none⟩ 0 (fun _ => "e") "m" docNode [1] [1] 1
    ?_ ?_ rfl rfl rfl kg_cosSim_one
  · simp [docGraph]
  · simp [docGraph]

/-- C5 counterexample: on the all-zero vectors the code's similarity is
`0 / 0`, which in JS is `NaN` (modeled `none`) — not the `0` the claim
states. -/
theorem C5_zero_magnitude_counterexample :
    cosineSimilarity [(0 : ℝ)] [(0 : ℝ)] = none ∧
    (none : Option ℝ) ≠ some 0 := by
  constructor
  · exact kg_cosSim_zero_mag _ _ (Or.inl (by norm_num [sumSq]))
  · simp

/-- C5 (amended): for any two vectors where at least one has zero
magnitude, the similarity computation yields `NaN` (modeled `none`),
not `0` and not an error; since the JS comparison `NaN > 0.7` is
false, no edge is created between the corresponding nodes. -/
theorem C5_zero_magnitude_amended
    (a b : List ℝ) (embedder : String → Option (List ℝ)) (rand : ℕ → ℝ)
    (g : KnowledgeGraph) (nodeId content : String) (ty : NodeType) (meta : MetadataArg)
    (now : ℕ) (supply : ℕ → String) (mId : String) (m : KnowledgeNode)
    (hmag : sumSq a = 0 ∨ sumSq b = 0)
    (hkeys : (g.nodes.map Prod.fst).Nodup)
    (hfresh : nodeId ∉ g.nodes.map Prod.fst)
    (hemb : embedder (content.take 500) = some a)
    (hm : List.lookup mId g.nodes = some m)
    (hmb : m.embedding = some b) :
    cosineSimilarity a b = none ∧
    simGT (cosineSimilarity a b) 0.7 = false ∧
    ∃ newE, (addKnowledge embedder rand g nodeId content ty meta now supply).edges
        = g.edges ++ newE ∧
      (newE.map (fun p => p.2.target)).count mId = 0 := by
  have hnone := kg_cosSim_zero_mag a b hmag
  refine ⟨hnone, by rw [hnone]; rfl, ?_⟩
  have hea : generateEmbedding embedder rand content = a := by
    unfold generateEmbedding
    rw [hemb]
  set node := buildNode embedder rand nodeId content ty meta now with hnode
  set N := g.nodes ++ [(nodeId, node)] with hN
  have hNnodup : (N.map Prod.fst).Nodup := by
    rw [hN]
    simp [List.nodup_append, hkeys, hfresh]
  have hmN : List.lookup mId N = some m := kg_lookup_append_left _ hm
  have hmIdmem : mId ∈ g.nodes.map Prod.fst :=
    List.mem_map_of_mem Prod.fst (kg_mem_of_lookup hm)
  have hmne : mId ≠ nodeId := fun he => hfresh (he ▸ hmIdmem)
  have hlm : linkMatch nodeId a (mId, m) = false := by
    unfold linkMatch
    rw [if_neg hmne]
    show (match m.embedding with
      | none => false
      | some eb => simGT (cosineSimilarity a eb) 0.7) = false
    rw [hmb]
    show simGT (cosineSimilarity a b) 0.7 = false
    rw [hnone]
    rfl
  refine ⟨linkEdges N nodeId node a now supply, ?_, ?_⟩
  · rw [kg_addKnowledge_edges embedder rand g nodeId content ty meta now supply hfresh, hea]
  · rw [kg_linkEdges_targets]
    have hnmem : mId ∉ (linkTargets N nodeId a).map Prod.fst := by
      intro hmem
      have hmm := (kg_mem_linkTargets_keys nodeId a hNnodup hmN).mp hmem
      rw [hlm] at hmm
      exact Bool.false_ne_true hmm
    exact List.count_eq_zero_of_not_mem hnmem

/-- Witness for C5 (amended): inserting a node embedding to `[0]` into
a store holding a node with embedding `[0]` creates no edge. -/
theorem C5_zero_magnitude_amended_witness :
    cosineSimilarity [(0 : ℝ)] [(0 : ℝ)] = none ∧
    simGT (cosineSimilarity [(0 : ℝ)] [(0 : ℝ)]) 0.7 = false ∧
    ∃ newE, (addKnowledge (fun _ => some [(0 : ℝ)]) (fun _ => 0) zeroVecGraph "n" "x"
        NodeType.concept ⟨none, none, none⟩ 0 (fun _ => "e")).edges
        = zeroVecGraph.edges ++ newE ∧
      (newE.map (fun p => p.2.target)).count "z" = 0 :=
  C5_zero_magnitude_amended [0] [0] (fun _ => some [(0 : ℝ)]) (fun _ => 0) zeroVecGraph
    "n" "x" NodeType.concept ⟨none, none, none⟩ 0 (fun _ => "e") "z" zeroVecNode
    (Or.inl (by norm_num [sumSq])) (by simp [zeroVecGraph]) (by simp [zeroVecGraph])
    rfl rfl rfl

/-- C6 counterexample: inserting a `concept` node against a stored
`document` node (similarity `1 > 0.7`) creates an edge labeled
`"connected_to"` — not `"contains"`, although one endpoint is a
document and the other a concept: the `document↔concept → contains`
rule fires only when the newly inserted node is the document, so the
rule list is not independent of which endpoint is the new node. -/
theorem C6_relationship_counterexample :
    ((addKnowledge (fun _ => some [(1 : ℝ)]) (fun _ => 0) docGraph "n" "x" NodeType.concept
        ⟨none, none, none⟩ 0 (fun _ => "e")).edges.map (fun p => p.2.relationship))
      = ["connected_to"] ∧
    "connected_to" ≠ "contains" := by
  have hfresh : "n" ∉ docGraph.nodes.map Prod.fst := by simp [docGraph]
  have h1 : linkMatch "n" [(1 : ℝ)] ("m", docNode) = true := by
    unfold linkMatch
    rw [if_neg (by decide : ¬ ("m" : String) = "n")]
    show (match docNode.embedding with
      | none => false
      | some eb => simGT (cosineSimilarity [(1 : ℝ)] eb) 0.7) = true
    rw [show docNode.embedding = some [(1 : ℝ)] from rfl]
    show simGT (cosineSimilarity [(1 : ℝ)] [(1 : ℝ)]) 0.7 = true
    rw [kg_cosSim_one]
    show decide ((0.7 : ℝ) < 1) = true
    exact decide_eq_true (by norm_num)
  have h2 : linkMatch "n" [(1 : ℝ)]
      ("n", buildNode (fun _ => some [(1 : ℝ)]) (fun _ => (0 : ℝ)) "n" "x"
        NodeType.concept ⟨none, none, none⟩ 0) = false := by
    unfold linkMatch
    rw [if_pos rfl]
  constructor
  · rw [kg_addKnowledge_edges _ _ _ _ _ _ _ _ _ hfresh]
    have hea : generateEmbedding (fun _ => some [(1 : ℝ)]) (fun _ => (0 : ℝ)) "x"
        = [(1 : ℝ)] := rfl
    rw [hea]
    have hT : linkTargets (docGraph.nodes
        ++ [("n", buildNode (fun _ => some [(1 : ℝ)]) (fun _ => (0 : ℝ)) "n" "x"
              NodeType.concept ⟨none, none, none⟩ 0)]) "n" [(1 : ℝ)]
        = [("m", docNode)] := by
      unfold linkTargets
      show List.filter (linkMatch "n" [(1 : ℝ)])
        [("m", docNode), ("n", buildNode (fun _ => some [(1 : ℝ)]) (fun _ => (0 : ℝ)) "n" "x"
          NodeType.concept ⟨none, none, none⟩ 0)] = [("m", docNode)]
      rw [List.filter_cons_of_pos h1, List.filter_cons_of_neg (by simp [h2]), List.filter_nil]
    unfold linkEdges
    rw [hT]
    rfl
  · decide

/-- C6 (amended): for every edge created at insertion of node `n`
against existing node `m`, the relationship label is determined by the
first matching rule of the fixed ordered list evaluated DIRECTIONALLY,
with the newly inserted node always in first position: same type →
`similar_to`; new node a document and existing a concept → `contains`;
new node a concept and existing an entity → `relates_to`; anything
else → `connected_to`.  (The two mixed rules do not fire when the
roles are swapped.) -/
theorem C6_relationship_amended
    (embedder : String → Option (List ℝ)) (rand : ℕ → ℝ) (g : KnowledgeGraph)
    (nodeId content : String) (ty : NodeType) (meta : MetadataArg) (now : ℕ)
    (supply : ℕ → String) (mId : String) (m : KnowledgeNode)
    (hkeys : (g.nodes.map Prod.fst).Nodup)
    (hfresh : nodeId ∉ g.nodes.map Prod.fst)
    (hm : List.lookup mId g.nodes = some m) :
    ∃ newE, (addKnowledge embedder rand g nodeId content ty meta now supply).edges
        = g.edges ++ newE ∧
      ∀ p ∈ newE, p.2.target = mId →
        p.2.relationship = specRelationship ty m.type := by
  set node := buildNode embedder rand nodeId content ty meta now with hnode
  set N := g.nodes ++ [(nodeId, node)] with hN
  have hNnodup : (N.map Prod.fst).Nodup := by
    rw [hN]
    simp [List.nodup_append, hkeys, hfresh]
  have hmN : List.lookup mId N = some m := kg_lookup_append_left _ hm
  refine ⟨linkEdges N nodeId node (generateEmbedding embedder rand content) now supply,
    kg_addKnowledge_edges embedder rand g nodeId content ty meta now supply hfresh, ?_⟩
  intro p hp ht
  have hr := (kg_linkEdges_target_fields nodeId node
    (generateEmbedding embedder rand content) now supply hNnodup hmN p hp ht).2
  rw [hr]
  rfl

/-- Witness for C6 (amended) at the concrete concept-into-document
insertion. -/
theorem C6_relationship_amended_witness :
    ∃ newE, (addKnowledge (fun _ => some [(1 : ℝ)]) (fun _ => 0) docGraph "n" "x"
        NodeType.concept ⟨none, none, none⟩ 0 (fun _ => "e")).edges
        = docGraph.edges ++ newE ∧
      ∀ p ∈ newE, p.2.target = "m" →
        p.2.relationship = specRelationship NodeType.concept docNode.type :=
  C6_relationship_amended (fun _ => some [(1 : ℝ)]) (fun _ => 0) docGraph "n" "x"
    NodeType.concept ⟨none, none, none⟩ 0 (fun _ => "e") "m" docNode
    (by simp [docGraph]) (by simp [docGraph]) rfl

theorem kg_keys_map_keyfun (f : String → KnowledgeNode → KnowledgeNode)
    (l : List (String × KnowledgeNode)) :
    (l.map (fun p => (p.1, f p.1 p.2))).map Prod.fst = l.map Prod.fst := by
  rw [List.map_map]
  rfl

theorem kg_reinforceNode_connections (d : ℚ) (n : KnowledgeNode) :
    (reinforceNode d n).connections = n.connections := by
  cases h : n.metadata.confidence with
  | none => simp [reinforceNode, h]
  | some c => by_cases hc : c = 0 <;> simp [reinforceNode, h, hc]

theorem kg_lookup_isSome_of_mem {β : Type} {x : String} {l : List (String × β)}
    (h : x ∈ l.map Prod.fst) : ∃ v, List.lookup x l = some v := by
  induction l with
  | nil => simp at h
  | cons p t ih =>
      obtain ⟨a, b⟩ := p
      rw [List.map_cons] at h
      by_cases hx : x = a
      · exact ⟨b, by rw [hx, List.lookup_cons, beq_self_eq_true]⟩
      · have hmem : x ∈ t.map Prod.fst := by
          rcases List.mem_cons.mp h with he | hm
          · exact absurd he hx
          · exact hm
        obtain ⟨v, hv⟩ := ih hmem
        exact ⟨v, by rw [List.lookup_cons, beq_eq_false_iff_ne.mpr hx]; exact hv⟩

theorem kg_exists_mem_append {α : Type} {l1 l2 : List α} {P : α → Prop} :
    (∃ x ∈ l1 ++ l2, P x) ↔ (∃ x ∈ l1, P x) ∨ (∃ x ∈ l2, P x) := by
  constructor
  · rintro ⟨x, hx, hP⟩
    rcases List.mem_append.mp hx with h | h
    · exact Or.inl ⟨x, h, hP⟩
    · exact Or.inr ⟨x, h, hP⟩
  · rintro (⟨x, hx, hP⟩ | ⟨x, hx, hP⟩)
    · exact ⟨x, List.mem_append.mpr (Or.inl hx), hP⟩
    · exact ⟨x, List.mem_append.mpr (Or.inr hx), hP⟩

theorem kg_linkEdges_exists_target {nodes : List (String × KnowledgeNode)} {newId : String}
    {newNode : KnowledgeNode} {ea : List ℝ} {now : ℕ} {supply : ℕ → String} {bId : String} :
    (∃ p ∈ linkEdges nodes newId newNode ea now supply, p.2.target = bId)
      ↔ bId ∈ (linkTargets nodes newId ea).map Prod.fst := by
  rw [← kg_linkEdges_targets nodes newId newNode ea now supply]
  constructor
  · rintro ⟨p, hp, ht⟩
    exact List.mem_map.mpr ⟨p, hp, ht⟩
  · intro h
    obtain ⟨p, hp, ht⟩ := List.mem_map.mp h
    exact ⟨p, hp, ht⟩

theorem kg_linkTargets_keys_subset {nodes : List (String × KnowledgeNode)} {newId : String}
    {ea : List ℝ} : ∀ c ∈ (linkTargets nodes newId ea).map Prod.fst, c ∈ nodes.map Prod.fst :=
  fun _ hc => (List.Sublist.map Prod.fst (List.filter_sublist nodes)).subset hc

theorem kg_wellFormed_reinforce (g : KnowledgeGraph) (rid : String) (fb : Feedback)
    (hWF : WellFormed g) : WellFormed (reinforceKnowledge g rid fb) := by
  unfold reinforceKnowledge
  cases hl : List.lookup rid g.nodes with
  | none => exact hWF
  | some n0 =>
      obtain ⟨hnd, hcl, hsym⟩ := hWF
      have hkeq := kg_keys_map_keyfun
        (fun k nd => if k = rid then reinforceNode (reinforceDelta fb) nd else nd) g.nodes
      simp only at hkeq
      have hlk : ∀ x, List.lookup x (g.nodes.map (fun p =>
          (p.1, if p.1 = rid then reinforceNode (reinforceDelta fb) p.2 else p.2)))
          = (List.lookup x g.nodes).map
            (fun nd => if x = rid then reinforceNode (reinforceDelta fb) nd else nd) := by
        intro x
        have h := kg_lookup_map_keyfun
          (fun k nd => if k = rid then reinforceNode (reinforceDelta fb) nd else nd) g.nodes x
        simp only at h
        exact h
      have hconn : ∀ (k : String) (nd : KnowledgeNode),
          (if k = rid then reinforceNode (reinforceDelta fb) nd else nd).connections
            = nd.connections := by
        intro k nd
        by_cases hk : k = rid
        · simp [hk, kg_reinforceNode_connections]
        · simp [hk]
      refine ⟨?_, ⟨?_, ?_⟩, ?_⟩
      · show ((g.nodes.map (fun p => (p.1,
          if p.1 = rid then reinforceNode (reinforceDelta fb) p.2 else p.2))).map Prod.fst).Nodup
        rw [hkeq]
        exact hnd
      · intro p hp c hc
        obtain ⟨q, hq, rfl⟩ := List.mem_map.mp hp
        show c ∈ (g.nodes.map (fun p => (p.1,
          if p.1 = rid then reinforceNode (reinforceDelta fb) p.2 else p.2))).map Prod.fst
        rw [hkeq]
        rw [show ((q.1, if q.1 = rid then reinforceNode (reinforceDelta fb) q.2 else q.2) :
            String × KnowledgeNode).2
          = (if q.1 = rid then reinforceNode (reinforceDelta fb) q.2 else q.2) from rfl,
          hconn] at hc
        exact hcl.1 q hq c hc
      · intro p hp
        show _ ∈ (g.nodes.map (fun p => (p.1,
            if p.1 = rid then reinforceNode (reinforceDelta fb) p.2 else p.2))).map Prod.fst
          ∧ _ ∈ (g.nodes.map (fun p => (p.1,
            if p.1 = rid then reinforceNode (reinforceDelta fb) p.2 else p.2))).map Prod.fst
        rw [hkeq]
        exact hcl.2 p hp
      · intro aId bId na' nb' hne ha' hb'
        have ha2 : List.lookup aId (g.nodes.map (fun p => (p.1,
            if p.1 = rid then reinforceNode (reinforceDelta fb) p.2 else p.2))) = some na' := ha'
        have hb2 : List.lookup bId (g.nodes.map (fun p => (p.1,
            if p.1 = rid then reinforceNode (reinforceDelta fb) p.2 else p.2))) = some nb' := hb'
        rw [hlk] at ha2 hb2
        obtain ⟨na, hna, hna'⟩ := Option.map_eq_some'.mp ha2
        obtain ⟨nb, hnb, hnb'⟩ := Option.map_eq_some'.mp hb2
        have hca : na'.connections = na.connections := by rw [← hna', hconn]
        have hcb : nb'.connections = nb.connections := by rw [← hnb', hconn]
        rw [hca, hcb]
        exact hsym aId bId na nb hne hna hnb

theorem kg_wellFormed_updateMetrics {g : KnowledgeGraph} (h : WellFormed g) :
    WellFormed (updateMetrics g) := h

theorem kg_wellFormed_addKnowledge (embedder : String → Option (List ℝ)) (rand : ℕ → ℝ)
    (g : KnowledgeGraph) (nodeId content : String) (ty : NodeType) (meta : MetadataArg)
    (now : ℕ) (supply : ℕ → String)
    (hWF : WellFormed g) (hfresh : nodeId ∉ g.nodes.map Prod.fst) :
    WellFormed (addKnowledge embedder rand g nodeId content ty meta now supply) := by
  obtain ⟨hnd, hcl, hsym⟩ := hWF
  rw [kg_addKnowledge_eq embedder rand g nodeId content ty meta now supply hfresh]
  apply kg_wellFormed_updateMetrics
  set nd0 := buildNode embedder rand nodeId content ty meta now with hnd0
  set N := g.nodes ++ [(nodeId, nd0)] with hN
  set ea := generateEmbedding embedder rand content with heaeq
  have hkeysN : N.map Prod.fst = g.nodes.map Prod.fst ++ [nodeId] := by
    rw [hN]
    simp
  have hndN : (N.map Prod.fst).Nodup := by
    rw [hkeysN]
    simp [List.nodup_append, hnd, hfresh]
  have hkeq := kg_keys_map_keyfun (relinkNode N nodeId ea) N
  have hlkN := kg_lookup_map_keyfun (relinkNode N nodeId ea) N
  have hlookN_self : List.lookup nodeId N = some nd0 := by
    rw [hN, kg_lookup_append_right _ hfresh, List.lookup_cons, beq_self_eq_true]
  have hlookN_other : ∀ x, x ≠ nodeId → List.lookup x N = List.lookup x g.nodes := by
    intro x hx
    cases hlx : List.lookup x g.nodes with
    | some v => rw [hN, kg_lookup_append_left _ hlx]
    | none =>
        have hxmem : x ∉ g.nodes.map Prod.fst := by
          intro hm
          obtain ⟨v, hv⟩ := kg_lookup_isSome_of_mem hm
          rw [hv] at hlx
          exact Option.some_ne_none v hlx
        rw [hN, kg_lookup_append_right _ hxmem, List.lookup_cons,
          beq_eq_false_iff_ne.mpr hx]
        rfl
  have holdedge : ∀ p ∈ g.edges, p.2.source ≠ nodeId ∧ p.2.target ≠ nodeId := by
    intro p hp
    have h := hcl.2 p hp
    exact ⟨fun he => hfresh (he ▸ h.1), fun he => hfresh (he ▸ h.2)⟩
  have hconnold : ∀ p ∈ g.nodes, nodeId ∉ p.2.connections := by
    intro p hp hmem
    exact hfresh (hcl.1 p hp nodeId hmem)
  have hnewconn : nd0.connections = [] := rfl
  have hrlA : ∀ nd : KnowledgeNode, relinkNode N nodeId ea nodeId nd
      = { nd with connections := nd.connections ++ (linkTargets N nodeId ea).map Prod.fst } := by
    intro nd
    unfold relinkNode
    rw [if_pos rfl]
  have hrlBc : ∀ (x : String) (nd : KnowledgeNode), x ≠ nodeId →
      (relinkNode N nodeId ea x nd).connections
        = nd.connections ++ (if linkMatch nodeId ea (x, nd) = true then [nodeId] else []) := by
    intro x nd hx
    unfold relinkNode
    rw [if_neg hx]
    by_cases hlm : linkMatch nodeId ea (x, nd) = true
    · rw [if_pos hlm, if_pos hlm]
    · rw [if_neg hlm, if_neg hlm, List.append_nil]
  have hT : ∀ (bId : String) (nb : KnowledgeNode), List.lookup bId N = some nb →
      (bId ∈ (linkTargets N nodeId ea).map Prod.fst ↔ linkMatch nodeId ea (bId, nb) = true) :=
    fun bId nb hb => kg_mem_linkTargets_keys nodeId ea hndN hb
  refine ⟨?_, ⟨?_, ?_⟩, ?_⟩
  · show ((N.map (fun p => (p.1, relinkNode N nodeId ea p.1 p.2))).map Prod.fst).Nodup
    rw [hkeq]
    exact hndN
  · intro p hp c hc
    obtain ⟨q, hq, rfl⟩ := List.mem_map.mp hp
    show c ∈ (N.map (fun p => (p.1, relinkNode N nodeId ea p.1 p.2))).map Prod.fst
    rw [hkeq]
    rcases List.mem_append.mp (hN ▸ hq) with hqold | hqnew
    · have hq1 : q.1 ≠ nodeId := by
        intro he
        exact hfresh (he ▸ List.mem_map_of_mem Prod.fst hqold)
      have hcq : c ∈ q.2.connections
          ++ (if linkMatch nodeId ea (q.1, q.2) = true then [nodeId] else []) := by
        rw [← hrlBc q.1 q.2 hq1]
        exact hc
      rw [hkeysN]
      rcases List.mem_append.mp hcq with hcs | hcs
      · exact List.mem_append.mpr (Or.inl (hcl.1 q hqold c hcs))
      · by_cases hlm : linkMatch nodeId ea (q.1, q.2) = true
        · rw [if_pos hlm] at hcs
          exact List.mem_append.mpr (Or.inr hcs)
        · rw [if_neg hlm] at hcs
          simp at hcs
    · have hq1 : q = (nodeId, nd0) := List.mem_singleton.mp hqnew
      subst hq1
      simp only at hc
      rw [hrlA nd0] at hc
      have hc2 : c ∈ nd0.connections ++ (linkTargets N nodeId ea).map Prod.fst := hc
      rw [hnewconn, List.nil_append] at hc2
      exact kg_linkTargets_keys_subset c hc2
  · intro p hp
    show p.2.source ∈ (N.map (fun p => (p.1, relinkNode N nodeId ea p.1 p.2))).map Prod.fst
      ∧ p.2.target ∈ (N.map (fun p => (p.1, relinkNode N nodeId ea p.1 p.2))).map Prod.fst
    rw [hkeq, hkeysN]
    rcases List.mem_append.mp hp with hpold | hpnew
    · have h := hcl.2 p hpold
      exact ⟨List.mem_append.mpr (Or.inl h.1), List.mem_append.mpr (Or.inl h.2)⟩
    · have hsrc := kg_linkEdges_source_ne nodeId nd0 ea now supply p hpnew
      obtain ⟨q, hq, hpe⟩ := kg_mem_linkEdges hpnew
      obtain ⟨hqmem, hqm⟩ := List.mem_filter.mp hq
      constructor
      · rw [hsrc.1]
        exact List.mem_append.mpr (Or.inr (List.mem_singleton.mpr rfl))
      · have hqk : q.1 ∈ N.map Prod.fst := List.mem_map_of_mem Prod.fst hqmem
        rw [hkeysN] at hqk
        rw [hpe]
        exact hqk
  · intro aId bId na' nb' hne ha' hb'
    have ha2 : List.lookup aId (N.map (fun p => (p.1, relinkNode N nodeId ea p.1 p.2)))
        = some na' := ha'
    have hb2 : List.lookup bId (N.map (fun p => (p.1, relinkNode N nodeId ea p.1 p.2)))
        = some nb' := hb'
    rw [hlkN] at ha2 hb2
    by_cases haid : aId = nodeId
    · subst haid
      rw [hlookN_self] at ha2
      have hna' : na' = relinkNode N aId ea aId nd0 := by
        simpa using ha2.symm
      have hbne : bId ≠ aId := Ne.symm hne
      rw [hlookN_other bId hbne] at hb2
      obtain ⟨nb, hnb, hnb'⟩ := Option.map_eq_some'.mp hb2
      have hnaC : na'.connections = (linkTargets N aId ea).map Prod.fst := by
        rw [hna', hrlA nd0]
        show nd0.connections ++ _ = _
        rw [hnewconn, List.nil_append]
      have hlmb := hT bId nb (by rw [hlookN_other bId hbne]; exact hnb)
      have hnbC : nb'.connections = nb.connections
          ++ (if linkMatch aId ea (bId, nb) = true then [aId] else []) := by
        rw [← hnb', hrlBc bId nb hbne]
      have hnin : aId ∉ nb.connections := hconnold (bId, nb) (kg_mem_of_lookup hnb)
      constructor
      · show (∃ p ∈ g.edges ++ linkEdges N aId nd0 ea now supply,
          edgeBetween p.2 aId bId) ↔ bId ∈ na'.connections
        rw [hnaC, kg_exists_mem_append]
        constructor
        · rintro (⟨p, hp, hbet⟩ | ⟨p, hp, hbet⟩)
          · rcases hbet with ⟨h1, _⟩ | ⟨_, h2⟩
            · exact absurd h1 (holdedge p hp).1
            · exact absurd h2 (holdedge p hp).2
          · rcases hbet with ⟨_, h2⟩ | ⟨h1, _⟩
            · exact kg_linkEdges_exists_target.mp ⟨p, hp, h2⟩
            · have hs := (kg_linkEdges_source_ne aId nd0 ea now supply p hp).1
              exact absurd (hs.symm.trans h1) hne
        · intro hmem
          obtain ⟨p, hp, ht⟩ := kg_linkEdges_exists_target.mpr hmem
          exact Or.inr ⟨p, hp, Or.inl
            ⟨(kg_linkEdges_source_ne aId nd0 ea now supply p hp).1, ht⟩⟩
      · rw [hnaC, hnbC]
        constructor
        · intro hmem
          rw [if_pos (hlmb.mp hmem)]
          exact List.mem_append.mpr (Or.inr (List.mem_singleton.mpr rfl))
        · intro hmem
          by_cases hlm : linkMatch aId ea (bId, nb) = true
          · exact hlmb.mpr hlm
          · rw [if_neg hlm, List.append_nil] at hmem
            exact absurd hmem hnin
    · by_cases hbid : bId = nodeId
      · subst hbid
        rw [hlookN_self] at hb2
        have hnb' : nb' = relinkNode N bId ea bId nd0 := by
          simpa using hb2.symm
        rw [hlookN_other aId haid] at ha2
        obtain ⟨na, hna, hna'⟩ := Option.map_eq_some'.mp ha2
        have hnbC : nb'.connections = (linkTargets N bId ea).map Prod.fst := by
          rw [hnb', hrlA nd0]
          show nd0.connections ++ _ = _
          rw [hnewconn, List.nil_append]
        have hlma := hT aId na (by rw [hlookN_other aId haid]; exact hna)
        have hnaC : na'.connections = na.connections
            ++ (if linkMatch bId ea (aId, na) = true then [bId] else []) := by
          rw [← hna', hrlBc aId na haid]
        have hnin : bId ∉ na.connections := hconnold (aId, na) (kg_mem_of_lookup hna)
        have hmemiff : bId ∈ na'.connections ↔ linkMatch bId ea (aId, na) = true := by
          rw [hnaC]
          constructor
          · intro hmem
            by_cases hlm : linkMatch bId ea (aId, na) = true
            · exact hlm
            · rw [if_neg hlm, List.append_nil] at hmem
              exact absurd hmem hnin
          · intro hlm
            rw [if_pos hlm]
            exact List.mem_append.mpr (Or.inr (List.mem_singleton.mpr rfl))
        constructor
        · show (∃ p ∈ g.edges ++ linkEdges N bId nd0 ea now supply,
            edgeBetween p.2 aId bId) ↔ bId ∈ na'.connections
          rw [hmemiff, ← hlma, kg_exists_mem_append]
          constructor
          · rintro (⟨p, hp, hbet⟩ | ⟨p, hp, hbet⟩)
            · rcases hbet with ⟨_, h2⟩ | ⟨h1, _⟩
              · exact absurd h2 (holdedge p hp).2
              · exact absurd h1 (holdedge p hp).1
            · rcases hbet with ⟨h1, _⟩ | ⟨_, h2⟩
              · have hs := (kg_linkEdges_source_ne bId nd0 ea now supply p hp).1
                exact absurd (hs.symm.trans h1).symm haid
              · exact kg_linkEdges_exists_target.mp ⟨p, hp, h2⟩
          · intro hmem
            obtain ⟨p, hp, ht⟩ := kg_linkEdges_exists_target.mpr hmem
            exact Or.inr ⟨p, hp, Or.inr
              ⟨(kg_linkEdges_source_ne bId nd0 ea now supply p hp).1, ht⟩⟩
        · rw [hnbC, hmemiff, ← hlma]
      · rw [hlookN_other aId haid] at ha2
        rw [hlookN_other bId hbid] at hb2
        obtain ⟨na, hna, hna'⟩ := Option.map_eq_some'.mp ha2
        obtain ⟨nb, hnb, hnb'⟩ := Option.map_eq_some'.mp hb2
        have hnaC : na'.connections = na.connections
            ++ (if linkMatch nodeId ea (aId, na) = true then [nodeId] else []) := by
          rw [← hna', hrlBc aId na haid]
        have hnbC : nb'.connections = nb.connections
            ++ (if linkMatch nodeId ea (bId, nb) = true then [nodeId] else []) := by
          rw [← hnb', hrlBc bId nb hbid]
        have hmembA : bId ∈ na'.connections ↔ bId ∈ na.connections := by
          rw [hnaC]
          constructor
          · intro h
            rcases List.mem_append.mp h with h | h
            · exact h
            · by_cases hlm : linkMatch nodeId ea (aId, na) = true
              · rw [if_pos hlm] at h
                exact absurd (List.mem_singleton.mp h) hbid
              · rw [if_neg hlm] at h
                simp at h
          · intro h
            exact List.mem_append.mpr (Or.inl h)
        have hmembB : aId ∈ nb'.connections ↔ aId ∈ nb.connections := by
          rw [hnbC]
          constructor
          · intro h
            rcases List.mem_append.mp h with h | h
            · exact h
            · by_cases hlm : linkMatch nodeId ea (bId, nb) = true
              · rw [if_pos hlm] at h
                exact absurd (List.mem_singleton.mp h) haid
              · rw [if_neg hlm] at h
                simp at h
          · intro h
            exact List.mem_append.mpr (Or.inl h)
        have hnonew : ¬ ∃ p ∈ linkEdges N nodeId nd0 ea now supply,
            edgeBetween p.2 aId bId := by
          rintro ⟨p, hp, hbet⟩
          have hs := (kg_linkEdges_source_ne nodeId nd0 ea now supply p hp).1
          rcases hbet with ⟨h1, _⟩ | ⟨h1, _⟩
          · exact haid (hs.symm.trans h1).symm
          · exact hbid (hs.symm.trans h1).symm
        have hold := hsym aId bId na nb hne hna hnb
        constructor
        · show (∃ p ∈ g.edges ++ linkEdges N nodeId nd0 ea now supply,
            edgeBetween p.2 aId bId) ↔ bId ∈ na'.connections
          rw [kg_exists_mem_append, or_iff_left hnonew, hmembA]
          exact hold.1
        · rw [hmembA, hmembB]
          exact hold.2

/-- C2: connection symmetry — for any two distinct stored nodes, an
edge with those endpoints exists iff the second node's id is in the
first's `connections`, iff the first's id is in the second's — is an
invariant preserved by every engine operation: insertion with linking
(under a fresh generated id) and reinforcement.  The symmetry statement
is the `ConnSymm` component of `WellFormed`, which also carries the
supporting store invariants (unique node ids, referential closure)
that the operations preserve alongside it. -/
theorem C2_symmetry_invariant
    (embedder : String → Option (List ℝ)) (rand : ℕ → ℝ) (g : KnowledgeGraph)
    (nodeId content : String) (ty : NodeType) (meta : MetadataArg) (now : ℕ)
    (supply : ℕ → String) (rid : String) (fb : Feedback)
    (hWF : WellFormed g) (hfresh : nodeId ∉ g.nodes.map Prod.fst) :
    WellFormed (addKnowledge embedder rand g nodeId content ty meta now supply) ∧
    WellFormed (reinforceKnowledge g rid fb) :=
  ⟨kg_wellFormed_addKnowledge embedder rand g nodeId content ty meta now supply hWF hfresh,
   kg_wellFormed_reinforce g rid fb hWF⟩

/-- Witness for C2: inserting into the empty store (and reinforcing
it) preserves well-formedness. -/
theorem C2_symmetry_invariant_witness :
    WellFormed (addKnowledge (fun _ => some [(1 : ℝ)]) (fun _ => 0) kgEmpty "a" "x"
      NodeType.concept ⟨none, none, none⟩ 0 (fun _ => "e")) ∧
    WellFormed (reinforceKnowledge kgEmpty "a" Feedback.positive) := by
  refine C2_symmetry_invariant (fun _ => some [(1 : ℝ)]) (fun _ => 0) kgEmpty "a" "x"
    NodeType.concept ⟨none, none, none⟩ 0 (fun _ => "e") "a" Feedback.positive
    ⟨?_, ⟨?_, ?_⟩, ?_⟩ ?_
  · simp [kgEmpty]
  · intro p hp
    simp [kgEmpty] at hp
  · intro p hp
    simp [kgEmpty] at hp
  · intro aId bId na nb hne ha hb
    simp [kgEmpty, List.lookup] at ha
  · simp [kgEmpty]
